import Mathlib

/-!
Verification of the per-evaluation scheduler context (`scheduler/context.go`):
the `EvalContext` facade (proposed allocations, metrics reset, lazy caches)
and the `EvalEligibility` tracker (per-computed-class feasibility memoization
with constraint-escape analysis).

Go maps are embedded as association lists with last-write-wins insertion;
Go slices (which distinguish `nil` from empty) are embedded as
`Option (List α)` with `none` standing for the nil slice.  Stateful methods
become explicit state passing: a method that may mutate its receiver returns
the updated receiver.
-/

namespace Nomad

/-- GoSlice models a Go slice value: `none` is the nil slice, `some l` a
non-nil slice with elements `l`. -/
abbrev GoSlice (α : Type) := Option (List α)

/-- goElems returns the elements of a Go slice (nil has no elements). -/
def goElems {α : Type} : GoSlice α → List α
  | none => []
  | some l => l

/-- goLen is Go's `len` on a slice; `len(nil) = 0`. -/
def goLen {α : Type} (s : GoSlice α) : Nat := (goElems s).length

/-- goAppendSlice models Go's `append(p, q...)`: appending zero elements
returns `p` unchanged (nil stays nil); appending a non-empty spread always
yields a non-nil slice with the concatenated elements. -/
def goAppendSlice {α : Type} (p q : GoSlice α) : GoSlice α :=
  match q with
  | none => p
  | some [] => p
  | some qs =>
    match p with
    | none => some qs
    | some ps => some (ps ++ qs)

/-- mapLookup models a Go map read `m[k]` on an association-list embedding. -/
def mapLookup {κ ν : Type} [DecidableEq κ] : List (κ × ν) → κ → Option ν
  | [], _ => none
  | (a, b) :: rest, key => if a = key then some b else mapLookup rest key

/-- mapInsert models a Go map write `m[k] = v`: it overwrites the entry for
`k` if present and otherwise adds one. -/
def mapInsert {κ ν : Type} [DecidableEq κ] : List (κ × ν) → κ → ν → List (κ × ν)
  | [], key, val => [(key, val)]
  | (a, b) :: rest, key, val =>
    if a = key then (a, val) :: rest else (a, b) :: mapInsert rest key val

/-- Modelled from the spec: `structs.Allocation` is not under the scheduler
source; the spec uses an allocation only through its identity (for removal of
"exactly those allocation instances") and whether it is in a terminal state
(completed/failed, no longer consuming resources). -/
structure Allocation where
  id : String
  terminal : Bool
deriving DecidableEq, Repr

/-- Modelled from the spec: `structs.FilterTerminalAllocs` is not under the
scheduler source; per the spec it drops allocations in a terminal state.  The
real helper filters in place, so nil-ness of the slice is preserved. -/
def FilterTerminalAllocs (allocs : GoSlice Allocation) : GoSlice Allocation :=
  allocs.map (List.filter (fun a => !a.terminal))

/-- Modelled from the spec: `structs.RemoveAllocs` is not under the scheduler
source; per the spec it removes exactly the allocation instances listed in
the removal set, identified by allocation identity. -/
def RemoveAllocs (allocs : GoSlice Allocation) (remove : GoSlice Allocation) :
    GoSlice Allocation :=
  allocs.map (List.filter (fun a => !(goElems remove).any (fun r => r.id == a.id)))

/-- Modelled from the spec: the cluster-state collaborator exposes
`AllocsByNode(nodeID)`, which returns every allocation currently recorded
against the node or fails with a storage/query error. -/
structure State where
  AllocsByNode : String → Except String (GoSlice Allocation)

/-- Modelled from the spec: the plan collaborator exposes a `NodeUpdate`
mapping (node → allocations being evicted/stopped) and a `NodeAllocation`
mapping (node → newly placed allocations). -/
structure Plan where
  NodeUpdate : List (String × List Allocation)
  NodeAllocation : List (String × List Allocation)

/-- planLookup is the Go map read on a plan mapping: a missing key yields the
nil slice. -/
def planLookup (m : List (String × List Allocation)) (nodeID : String) :
    GoSlice Allocation :=
  match mapLookup m nodeID with
  | some l => some l
  | none => none

/-- Modelled from the spec: the metrics record accumulated per placement
attempt (`structs.AllocMetric` is not under the scheduler source); `new`
produces the zero value, and `Reset` replaces the record wholesale. -/
structure AllocMetric where
  nodesEvaluated : Nat := 0
  nodesFiltered : Nat := 0
  allocationTime : Nat := 0
deriving DecidableEq, Repr

/-- Modelled from the spec: an opaque logging handle (`log.Logger`). -/
structure Logger where
  name : String
deriving DecidableEq

/-- Modelled from the spec: an opaque compiled regular expression
(`regexp.Regexp`), keyed by its pattern in the cache. -/
structure Regexp where
  pattern : String
deriving DecidableEq

/-- Modelled from the spec: an opaque parsed version-constraint set
(`version.Constraints`). -/
structure VersionConstraints where
  expr : String
deriving DecidableEq

/-- Modelled from the spec: a constraint of a job, task group or task; this
component treats constraints as opaque values consumed by the externally
supplied escaped-constraints predicate. -/
structure Constraint where
  ltarget : String
  rtarget : String
  operand : String
deriving DecidableEq

/-- Task carries its own constraint list. -/
structure Task where
  constraints : List Constraint

/-- TaskGroup has a name, its own constraints, and its tasks. -/
structure TaskGroup where
  name : String
  constraints : List Constraint
  tasks : List Task

/-- Job has top-level constraints and task groups. -/
structure Job where
  constraints : List Constraint
  taskGroups : List TaskGroup

/-- ComputedClassFeasibility is the four-state feasibility verdict stored per
computed node class (`scheduler/context.go`, the `ComputedClassFeasibility`
byte enum). -/
inductive ComputedClassFeasibility where
  | unknown
  | ineligible
  | eligible
  | escaped
deriving DecidableEq, Repr

/-- EvalEligibility tracks eligibility of nodes by computed node class over
the course of an evaluation (`scheduler/context.go`).  The computed node
class (`uint64` in Go) is embedded as `Nat`: the code only compares classes
for equality and against zero. -/
structure EvalEligibility where
  job : List (Nat × ComputedClassFeasibility)
  jobEscaped : Bool
  taskGroups : List (String × List (Nat × ComputedClassFeasibility))
  tgEscapedConstraints : List (String × Bool)

/-- NewEvalEligibility returns an eligibility tracker for the context of an
evaluation; `jobEscaped` starts at the Go zero value `false`. -/
def NewEvalEligibility : EvalEligibility :=
  { job := [], jobEscaped := false, taskGroups := [], tgEscapedConstraints := [] }

/-- tgConstraints is the loop body of `SetJob` for one task group: the
group's own constraints followed by every task's constraints. -/
def tgConstraints (tg : TaskGroup) : List Constraint :=
  tg.tasks.foldl (fun cs t => cs ++ t.constraints) tg.constraints

/-- setJobTG is the `SetJob` loop over the job's task groups, recording the
per-group escaped flag; `esc` is the externally supplied
`structs.EscapedConstraints` predicate. -/
def setJobTG (esc : List Constraint → List Constraint)
    (m : List (String × Bool)) : List TaskGroup → List (String × Bool)
  | [] => m
  | tg :: rest =>
    setJobTG esc (mapInsert m tg.name (!(esc (tgConstraints tg)).isEmpty)) rest

/-- SetJob takes the job being evaluated and calculates the escaped
constraints at the job and task group level.  The escape predicate
`structs.EscapedConstraints` is an external collaborator and is passed in as
a parameter. -/
def EvalEligibility.SetJob (e : EvalEligibility)
    (esc : List Constraint → List Constraint) (job : Job) : EvalEligibility :=
  { e with
    jobEscaped := !(esc job.constraints).isEmpty
    tgEscapedConstraints := setJobTG esc e.tgEscapedConstraints job.taskGroups }

/-- anyEscaped is the `HasEscaped` loop over the per-group escaped flags. -/
def anyEscaped : List (String × Bool) → Bool
  | [] => false
  | (_, escaped) :: rest => if escaped then true else anyEscaped rest

/-- HasEscaped returns whether any of the constraints in the passed job have
escaped computed node classes. -/
def EvalEligibility.HasEscaped (e : EvalEligibility) : Bool :=
  if e.jobEscaped then true else anyEscaped e.tgEscapedConstraints

/-- classify is the `GetClasses` scan over one class-to-feasibility map,
appending eligible classes to the first accumulator and ineligible classes
to the second. -/
def classify (acc : List Nat × List Nat) :
    List (Nat × ComputedClassFeasibility) → List Nat × List Nat
  | [] => acc
  | (cls, feas) :: rest =>
    match feas with
    | ComputedClassFeasibility.eligible => classify (acc.1 ++ [cls], acc.2) rest
    | ComputedClassFeasibility.ineligible => classify (acc.1, acc.2 ++ [cls]) rest
    | _ => classify acc rest

/-- GetClasses returns the eligible classes and the ineligible classes,
respectively, across the job and task groups. -/
def EvalEligibility.GetClasses (e : EvalEligibility) : List Nat × List Nat :=
  e.taskGroups.foldl (fun acc gp => classify acc gp.2) (classify ([], []) e.job)

/-- JobStatus returns the eligibility status of the job.  A `class` of `0`
(no computed class, pre-0.3 client) or an escaped job disables memoization
and yields `escaped` without consulting the map.  (The Go code prints a
debug line in that branch; the print has no functional effect and is not
embedded.) -/
def EvalEligibility.JobStatus (e : EvalEligibility) (cls : Nat) :
    ComputedClassFeasibility :=
  if e.jobEscaped || cls == 0 then ComputedClassFeasibility.escaped
  else
    match mapLookup e.job cls with
    | some status => status
    | none => ComputedClassFeasibility.unknown

/-- SetJobEligibility sets the eligibility status of the job for the computed
node class. -/
def EvalEligibility.SetJobEligibility (e : EvalEligibility) (eligible : Bool)
    (cls : Nat) : EvalEligibility :=
  if eligible then
    { e with job := mapInsert e.job cls ComputedClassFeasibility.eligible }
  else
    { e with job := mapInsert e.job cls ComputedClassFeasibility.ineligible }

/-- TaskGroupStatus returns the eligibility status of the task group. -/
def EvalEligibility.TaskGroupStatus (e : EvalEligibility) (tg : String)
    (cls : Nat) : ComputedClassFeasibility :=
  if cls == 0 then ComputedClassFeasibility.escaped
  else
    match mapLookup e.tgEscapedConstraints tg with
    | some true => ComputedClassFeasibility.escaped
    | _ =>
      match mapLookup e.taskGroups tg with
      | some classes =>
        match mapLookup classes cls with
        | some status => status
        | none => ComputedClassFeasibility.unknown
      | none => ComputedClassFeasibility.unknown

/-- SetTaskGroupEligibility sets the eligibility status of the task group for
the computed node class, creating the group's inner map on first use. -/
def EvalEligibility.SetTaskGroupEligibility (e : EvalEligibility)
    (eligible : Bool) (tg : String) (cls : Nat) : EvalEligibility :=
  let eligibility :=
    if eligible then ComputedClassFeasibility.eligible
    else ComputedClassFeasibility.ineligible
  match mapLookup e.taskGroups tg with
  | some classes =>
    { e with taskGroups := mapInsert e.taskGroups tg (mapInsert classes cls eligibility) }
  | none =>
    { e with taskGroups := mapInsert e.taskGroups tg [(cls, eligibility)] }

/-- EvalContext is a Context used during an Evaluation; the embedded
`EvalCache` struct is flattened into the two cache fields.  The lazily
materialized fields (`reCache`, `constraintCache`, `eligibility`) are
`Option`s, `none` before first access. -/
structure EvalContext where
  reCache : Option (List (String × Regexp))
  constraintCache : Option (List (String × VersionConstraints))
  state : State
  plan : Plan
  logger : Logger
  metrics : AllocMetric
  eligibility : Option EvalEligibility

/-- NewEvalContext constructs a new EvalContext with a fresh zero metrics
record and no materialized caches or tracker. -/
def NewEvalContext (s : State) (p : Plan) (log : Logger) : EvalContext :=
  { reCache := none, constraintCache := none, state := s, plan := p,
    logger := log, metrics := {}, eligibility := none }

/-- State is the read-only cluster-state accessor. -/
def EvalContext.State (e : EvalContext) : State := e.state

/-- Plan returns the current plan. -/
def EvalContext.Plan (e : EvalContext) : Plan := e.plan

/-- Logger provides a way to log. -/
def EvalContext.Logger (e : EvalContext) : Logger := e.logger

/-- Metrics returns the current metrics. -/
def EvalContext.Metrics (e : EvalContext) : AllocMetric := e.metrics

/-- SetState replaces the cluster-state handle. -/
def EvalContext.SetState (e : EvalContext) (s : Nomad.State) : EvalContext :=
  { e with state := s }

/-- Reset is invoked after making a placement: it replaces the metrics record
with a fresh zero value (`new(structs.AllocMetric)`). -/
def EvalContext.Reset (e : EvalContext) : EvalContext :=
  { e with metrics := {} }

/-- ensureNonNil is the final guard of `ProposedAllocs`: a nil slice is
replaced by a freshly made empty one so the return is never nil. -/
def ensureNonNil (s : GoSlice Allocation) : GoSlice Allocation :=
  match s with
  | none => some []
  | some l => some l

/-- ProposedAllocs returns the proposed allocations for a node, which is the
existing allocations, removing evictions, and adding any planned placements;
the returned slice is never nil. -/
def EvalContext.ProposedAllocs (e : EvalContext) (nodeID : String) :
    Except String (GoSlice Allocation) :=
  match e.state.AllocsByNode nodeID with
  | Except.error err => Except.error err
  | Except.ok existingAlloc =>
    let existingAlloc := FilterTerminalAllocs existingAlloc
    let update := planLookup e.plan.NodeUpdate nodeID
    let proposed :=
      if goLen update > 0 then RemoveAllocs existingAlloc update
      else existingAlloc
    Except.ok (ensureNonNil
      (goAppendSlice proposed (planLookup e.plan.NodeAllocation nodeID)))

/-- Eligibility returns the tracker for node eligibility, materializing it on
first call; the returned context is the (possibly updated) receiver. -/
def EvalContext.Eligibility (e : EvalContext) : EvalEligibility × EvalContext :=
  match e.eligibility with
  | some t => (t, e)
  | none => (NewEvalEligibility, { e with eligibility := some NewEvalEligibility })

/-- RegexpCache returns the regular-expression cache, allocating the backing
map on first call; the returned context is the (possibly updated) receiver. -/
def EvalContext.RegexpCache (e : EvalContext) :
    List (String × Regexp) × EvalContext :=
  match e.reCache with
  | some m => (m, e)
  | none => ([], { e with reCache := some [] })

/-- ConstraintCache returns the version-constraint cache, allocating the
backing map on first call; the returned context is the (possibly updated)
receiver. -/
def EvalContext.ConstraintCache (e : EvalContext) :
    List (String × VersionConstraints) × EvalContext :=
  match e.constraintCache with
  | some m => (m, e)
  | none => ([], { e with constraintCache := some [] })

/-! ## Helper lemmas about the embedded Go maps and slices -/

theorem mapLookup_mapInsert_self {κ ν : Type} [DecidableEq κ]
    (m : List (κ × ν)) (k : κ) (v : ν) :
    mapLookup (mapInsert m k v) k = some v := by
  induction m with
  | nil => simp [mapInsert, mapLookup]
  | cons hd tl ih =>
    obtain ⟨a, b⟩ := hd
    by_cases hak : a = k
    · simp [mapInsert, mapLookup, hak]
    · simp [mapInsert, mapLookup, hak, ih]

theorem mapLookup_mapInsert_ne {κ ν : Type} [DecidableEq κ]
    (m : List (κ × ν)) (k k2 : κ) (v : ν) (hne : k ≠ k2) :
    mapLookup (mapInsert m k v) k2 = mapLookup m k2 := by
  induction m with
  | nil => simp [mapInsert, mapLookup, hne]
  | cons hd tl ih =>
    obtain ⟨a, b⟩ := hd
    by_cases hak : a = k
    · subst hak
      simp [mapInsert, mapLookup, hne]
    · simp only [mapInsert, if_neg hak]
      by_cases hak2 : a = k2
      · simp [mapLookup, hak2]
      · simp [mapLookup, hak2, ih]

theorem mapInsert_mapInsert {κ ν : Type} [DecidableEq κ]
    (m : List (κ × ν)) (k : κ) (v v2 : ν) :
    mapInsert (mapInsert m k v) k v2 = mapInsert m k v2 := by
  induction m with
  | nil => simp [mapInsert]
  | cons hd tl ih =>
    obtain ⟨a, b⟩ := hd
    by_cases hak : a = k
    · simp [mapInsert, hak]
    · simp [mapInsert, hak, ih]

theorem anyEscaped_eq_any (m : List (String × Bool)) :
    anyEscaped m = m.any (fun p => p.2) := by
  induction m with
  | nil => rfl
  | cons hd tl ih =>
    obtain ⟨a, b⟩ := hd
    cases b <;> simp [anyEscaped, ih]

theorem goElems_goAppendSlice {α : Type} (p q : GoSlice α) :
    goElems (goAppendSlice p q) = goElems p ++ goElems q := by
  match q with
  | none => simp [goAppendSlice, goElems]
  | some [] => simp [goAppendSlice, goElems]
  | some (x :: xs) =>
    match p with
    | none => simp [goAppendSlice, goElems]
    | some ps => simp [goAppendSlice, goElems]

theorem goElems_FilterTerminalAllocs (allocs : GoSlice Allocation) :
    goElems (FilterTerminalAllocs allocs) =
      (goElems allocs).filter (fun a => !a.terminal) := by
  cases allocs <;> simp [FilterTerminalAllocs, goElems]

theorem goElems_RemoveAllocs (allocs remove : GoSlice Allocation) :
    goElems (RemoveAllocs allocs remove) =
      (goElems allocs).filter
        (fun a => !(goElems remove).any (fun r => r.id == a.id)) := by
  cases allocs <;> simp [RemoveAllocs, goElems]

theorem ensureNonNil_eq (proposed : GoSlice Allocation) :
    ensureNonNil proposed = some (goElems proposed) := by
  cases proposed <;> rfl

theorem tgConstraints_eq_append (tg : TaskGroup) :
    tgConstraints tg =
      tg.constraints ++ (tg.tasks.map Task.constraints).flatten := by
  show tg.tasks.foldl (fun cs t => cs ++ t.constraints) tg.constraints = _
  generalize tg.constraints = init
  induction tg.tasks generalizing init with
  | nil => simp
  | cons hd tl ih => simp [ih, List.append_assoc]

theorem setJobTG_lookup_notmem (esc : List Constraint → List Constraint)
    (m : List (String × Bool)) (tgs : List TaskGroup) (k : String)
    (hk : k ∉ tgs.map TaskGroup.name) :
    mapLookup (setJobTG esc m tgs) k = mapLookup m k := by
  induction tgs generalizing m with
  | nil => rfl
  | cons hd tl ih =>
    simp only [List.map_cons, List.mem_cons, not_or] at hk
    rw [setJobTG, ih _ hk.2, mapLookup_mapInsert_ne]
    exact fun h => hk.1 h.symm

theorem setJobTG_lookup_mem (esc : List Constraint → List Constraint)
    (m : List (String × Bool)) (tgs : List TaskGroup) (tg : TaskGroup)
    (htg : tg ∈ tgs) (hnd : (tgs.map TaskGroup.name).Nodup) :
    mapLookup (setJobTG esc m tgs) tg.name =
      some (!(esc (tgConstraints tg)).isEmpty) := by
  induction tgs generalizing m with
  | nil => cases htg
  | cons hd tl ih =>
    simp only [List.map_cons, List.nodup_cons] at hnd
    rcases List.mem_cons.mp htg with rfl | htl
    · rw [setJobTG, setJobTG_lookup_notmem _ _ _ _ hnd.1]
      exact mapLookup_mapInsert_self _ _ _
    · exact ih _ htl hnd.2

theorem Eligibility_spec (e : EvalContext) :
    e.Eligibility = (e.eligibility.getD NewEvalEligibility,
      { e with eligibility := some (e.eligibility.getD NewEvalEligibility) }) := by
  obtain ⟨rc, cc, st, pl, lg, mt, el⟩ := e
  cases el <;> rfl

theorem RegexpCache_spec (e : EvalContext) :
    e.RegexpCache = (e.reCache.getD [],
      { e with reCache := some (e.reCache.getD []) }) := by
  obtain ⟨rc, cc, st, pl, lg, mt, el⟩ := e
  cases rc <;> rfl

theorem ConstraintCache_spec (e : EvalContext) :
    e.ConstraintCache = (e.constraintCache.getD [],
      { e with constraintCache := some (e.constraintCache.getD []) }) := by
  obtain ⟨rc, cc, st, pl, lg, mt, el⟩ := e
  cases cc <;> rfl

/-! ## Claim theorems -/

/-- C2: `JobStatus(class)` returns `Escaped` — without consulting the
per-class map, hence for every map content and even right after a
`SetJobEligibility` call for that class — whenever the job-level escaped
flag is set or `class = 0`; otherwise it returns the state stored for the
class, defaulting to `Unknown` when the class was never set. -/
theorem JobStatus_escaped_and_lookup (e : EvalEligibility) (cls : Nat) :
    ((e.jobEscaped = true ∨ cls = 0) →
      e.JobStatus cls = ComputedClassFeasibility.escaped ∧
      ∀ b : Bool,
        (e.SetJobEligibility b cls).JobStatus cls =
          ComputedClassFeasibility.escaped) ∧
    (e.jobEscaped = false → cls ≠ 0 →
      e.JobStatus cls =
        (mapLookup e.job cls).getD ComputedClassFeasibility.unknown) := by
  constructor
  · intro h
    have hcond : (e.jobEscaped || cls == 0) = true := by
      rcases h with h | h
      · simp [h]
      · simp [h]
    constructor
    · simp [EvalEligibility.JobStatus, hcond]
    · intro b
      cases b <;>
        simp_all [EvalEligibility.JobStatus, EvalEligibility.SetJobEligibility]
  · intro hesc h0
    simp only [EvalEligibility.JobStatus, hesc, Bool.false_or, beq_iff_eq,
      if_neg h0]
    cases mapLookup e.job cls <;> simp

/-- C2 witness: with the job-level flag set, `JobStatus 5` is `Escaped`
despite a stored `Eligible` entry for class 5; on a fresh tracker with no
escape, `JobStatus 7` is the defaulted map lookup. -/
theorem JobStatus_escaped_and_lookup_witness :
    ({ job := [(5, ComputedClassFeasibility.eligible)], jobEscaped := true,
       taskGroups := [], tgEscapedConstraints := [] } :
        EvalEligibility).JobStatus 5 = ComputedClassFeasibility.escaped ∧
    NewEvalEligibility.JobStatus 7 =
      (mapLookup NewEvalEligibility.job 7).getD ComputedClassFeasibility.unknown :=
  ⟨((JobStatus_escaped_and_lookup _ 5).1 (Or.inl rfl)).1,
   (JobStatus_escaped_and_lookup NewEvalEligibility 7).2 rfl (by decide)⟩

/-- C5: at job scope, with no escape and a non-zero class,
`SetJobEligibility true` then `JobStatus` yields `Eligible`,
`SetJobEligibility false` yields `Ineligible`, a later `SetJobEligibility`
for the same class overwrites an earlier one unconditionally (the double
write equals the single later write), and a never-set class reads
`Unknown`. -/
theorem SetJobEligibility_roundtrip (e : EvalEligibility) (cls : Nat)
    (hesc : e.jobEscaped = false) (h0 : cls ≠ 0) :
    (e.SetJobEligibility true cls).JobStatus cls =
      ComputedClassFeasibility.eligible ∧
    (e.SetJobEligibility false cls).JobStatus cls =
      ComputedClassFeasibility.ineligible ∧
    (∀ b b2 : Bool,
      (e.SetJobEligibility b cls).SetJobEligibility b2 cls =
        e.SetJobEligibility b2 cls) ∧
    (mapLookup e.job cls = none →
      e.JobStatus cls = ComputedClassFeasibility.unknown) := by
  refine ⟨?_, ?_, ?_, ?_⟩
  · simp [EvalEligibility.JobStatus, EvalEligibility.SetJobEligibility, hesc,
      h0, mapLookup_mapInsert_self]
  · simp [EvalEligibility.JobStatus, EvalEligibility.SetJobEligibility, hesc,
      h0, mapLookup_mapInsert_self]
  · intro b b2
    cases b <;> cases b2 <;>
      simp [EvalEligibility.SetJobEligibility, mapInsert_mapInsert]
  · intro hnone
    simp [EvalEligibility.JobStatus, hesc, h0, hnone]

/-- C5 witness: on a fresh tracker, setting class 7 eligible reads back
`Eligible`, setting it ineligible reads back `Ineligible`, the overwrite
law holds, and class 8 (never set) reads `Unknown`. -/
theorem SetJobEligibility_roundtrip_witness :
    (NewEvalEligibility.SetJobEligibility true 7).JobStatus 7 =
      ComputedClassFeasibility.eligible ∧
    NewEvalEligibility.JobStatus 8 = ComputedClassFeasibility.unknown :=
  ⟨(SetJobEligibility_roundtrip NewEvalEligibility 7 rfl (by decide)).1,
   (SetJobEligibility_roundtrip NewEvalEligibility 8 rfl
      (by decide)).2.2.2 rfl⟩

/-- C3: `TaskGroupStatus(group, class)` is `Escaped` for class 0, else
`Escaped` when the group's escaped flag is set, else the stored state for
`(group, class)` defaulting to `Unknown`; and groups are independent
namespaces: `SetTaskGroupEligibility` on a different group name leaves the
status unchanged. -/
theorem TaskGroupStatus_cases (e : EvalEligibility) (g : String) (cls : Nat) :
    (cls = 0 → e.TaskGroupStatus g cls = ComputedClassFeasibility.escaped) ∧
    (cls ≠ 0 → mapLookup e.tgEscapedConstraints g = some true →
      e.TaskGroupStatus g cls = ComputedClassFeasibility.escaped) ∧
    (cls ≠ 0 → mapLookup e.tgEscapedConstraints g ≠ some true →
      e.TaskGroupStatus g cls =
        ((mapLookup e.taskGroups g).bind
          (fun classes => mapLookup classes cls)).getD
            ComputedClassFeasibility.unknown) ∧
    (∀ (b : Bool) (g2 : String) (c2 : Nat), g2 ≠ g →
      (e.SetTaskGroupEligibility b g2 c2).TaskGroupStatus g cls =
        e.TaskGroupStatus g cls) := by
  refine ⟨?_, ?_, ?_, ?_⟩
  · intro h
    simp [EvalEligibility.TaskGroupStatus, h]
  · intro h0 hescg
    simp [EvalEligibility.TaskGroupStatus, h0, hescg]
  · intro h0 hescg
    simp only [EvalEligibility.TaskGroupStatus, beq_iff_eq, if_neg h0]
    rcases hflag : mapLookup e.tgEscapedConstraints g with _ | b
    · cases hgrp : mapLookup e.taskGroups g with
      | none => simp
      | some classes => rcases hx : mapLookup classes cls with _ | st <;> simp [hx]
    · cases b
      · cases hgrp : mapLookup e.taskGroups g with
        | none => simp
        | some classes =>
          rcases hx : mapLookup classes cls with _ | st <;> simp [hx]
      · exact absurd hflag hescg
  · intro b g2 c2 hne
    have htg : mapLookup (e.SetTaskGroupEligibility b g2 c2).taskGroups g =
        mapLookup e.taskGroups g := by
      rw [EvalEligibility.SetTaskGroupEligibility]
      cases mapLookup e.taskGroups g2 <;>
        simp [mapLookup_mapInsert_ne _ _ _ _ hne]
    have hflags :
        (e.SetTaskGroupEligibility b g2 c2).tgEscapedConstraints =
          e.tgEscapedConstraints := by
      rw [EvalEligibility.SetTaskGroupEligibility]
      cases mapLookup e.taskGroups g2 <;> simp
    simp [EvalEligibility.TaskGroupStatus, htg, hflags]

/-- C3 witness: class 0 is `Escaped` on a fresh tracker, and setting class 3
eligible for group "web" does not change the status of group "db" at
class 3. -/
theorem TaskGroupStatus_cases_witness :
    NewEvalEligibility.TaskGroupStatus "db" 0 =
      ComputedClassFeasibility.escaped ∧
    (NewEvalEligibility.SetTaskGroupEligibility true "web" 3).TaskGroupStatus
        "db" 3 = NewEvalEligibility.TaskGroupStatus "db" 3 :=
  ⟨(TaskGroupStatus_cases NewEvalEligibility "db" 0).1 rfl,
   (TaskGroupStatus_cases NewEvalEligibility "db" 3).2.2.2 true "web" 3
     (by decide)⟩

/-- C4: after `SetJob`, the job-level escaped flag is set iff the escape
predicate returns a non-empty subset of the job's top-level constraints;
each task group's flag (under distinct group names) is set iff the predicate
returns a non-empty subset of the group's own constraints together with all
its tasks' constraints; and `HasEscaped` is true iff the job-level flag or
some group's flag is set. -/
theorem SetJob_escape_flags (esc : List Constraint → List Constraint)
    (e : EvalEligibility) (job : Job) :
    ((e.SetJob esc job).jobEscaped = !(esc job.constraints).isEmpty) ∧
    (∀ tg, tg ∈ job.taskGroups →
      (job.taskGroups.map TaskGroup.name).Nodup →
      mapLookup (e.SetJob esc job).tgEscapedConstraints tg.name =
        some (!(esc (tg.constraints ++
          (tg.tasks.map Task.constraints).flatten)).isEmpty)) ∧
    (∀ e2 : EvalEligibility,
      e2.HasEscaped =
        (e2.jobEscaped || e2.tgEscapedConstraints.any (fun p => p.2))) := by
  refine ⟨rfl, ?_, ?_⟩
  · intro tg htg hnd
    have h := setJobTG_lookup_mem esc e.tgEscapedConstraints job.taskGroups
      tg htg hnd
    rw [tgConstraints_eq_append] at h
    exact h
  · intro e2
    rw [EvalEligibility.HasEscaped, anyEscaped_eq_any]
    cases e2.jobEscaped <;> simp

/-- C4 witness: a job with one group "web" whose single constraint escapes
(the predicate keeps `distinct_hosts` constraints) records `true` as that
group's escaped flag. -/
theorem SetJob_escape_flags_witness :
    mapLookup (NewEvalEligibility.SetJob
        (fun cs => cs.filter (fun c => c.operand == "distinct_hosts"))
        { constraints := [],
          taskGroups := [{ name := "web",
                           constraints :=
                             [{ ltarget := "", rtarget := "",
                                operand := "distinct_hosts" }],
                           tasks := [] }] }).tgEscapedConstraints "web" =
      some true := by
  have h := (SetJob_escape_flags
      (fun cs => cs.filter (fun c => c.operand == "distinct_hosts"))
      NewEvalEligibility
      { constraints := [],
        taskGroups := [{ name := "web",
                         constraints :=
                           [{ ltarget := "", rtarget := "",
                              operand := "distinct_hosts" }],
                         tasks := [] }] }).2.1
    { name := "web",
      constraints := [{ ltarget := "", rtarget := "",
                        operand := "distinct_hosts" }],
      tasks := [] }
    (List.Mem.head _) (by simp)
  simpa using h

theorem mem_classify_fst (m : List (Nat × ComputedClassFeasibility))
    (acc : List Nat × List Nat) (c : Nat) :
    c ∈ (classify acc m).1 ↔
      c ∈ acc.1 ∨ (c, ComputedClassFeasibility.eligible) ∈ m := by
  induction m generalizing acc with
  | nil => simp [classify]
  | cons hd tl ih =>
    obtain ⟨cls, feas⟩ := hd
    cases feas <;> (simp [classify, ih, List.mem_append]; try tauto)

theorem mem_classify_snd (m : List (Nat × ComputedClassFeasibility))
    (acc : List Nat × List Nat) (c : Nat) :
    c ∈ (classify acc m).2 ↔
      c ∈ acc.2 ∨ (c, ComputedClassFeasibility.ineligible) ∈ m := by
  induction m generalizing acc with
  | nil => simp [classify]
  | cons hd tl ih =>
    obtain ⟨cls, feas⟩ := hd
    cases feas <;> (simp [classify, ih, List.mem_append]; try tauto)

theorem mem_foldl_classify_fst
    (gps : List (String × List (Nat × ComputedClassFeasibility)))
    (acc : List Nat × List Nat) (c : Nat) :
    c ∈ (gps.foldl (fun a gp => classify a gp.2) acc).1 ↔
      c ∈ acc.1 ∨
        ∃ gp ∈ gps, (c, ComputedClassFeasibility.eligible) ∈ gp.2 := by
  induction gps generalizing acc with
  | nil => simp
  | cons hd tl ih =>
    simp only [List.foldl_cons, ih, mem_classify_fst, List.mem_cons]
    constructor
    · rintro ((h | h) | h)
      · exact Or.inl h
      · exact Or.inr ⟨hd, Or.inl rfl, h⟩
      · obtain ⟨gp, hgp, hm⟩ := h
        exact Or.inr ⟨gp, Or.inr hgp, hm⟩
    · rintro (h | ⟨gp, hgp | hgp, hm⟩)
      · exact Or.inl (Or.inl h)
      · subst hgp
        exact Or.inl (Or.inr hm)
      · exact Or.inr ⟨gp, hgp, hm⟩

theorem mem_foldl_classify_snd
    (gps : List (String × List (Nat × ComputedClassFeasibility)))
    (acc : List Nat × List Nat) (c : Nat) :
    c ∈ (gps.foldl (fun a gp => classify a gp.2) acc).2 ↔
      c ∈ acc.2 ∨
        ∃ gp ∈ gps, (c, ComputedClassFeasibility.ineligible) ∈ gp.2 := by
  induction gps generalizing acc with
  | nil => simp
  | cons hd tl ih =>
    simp only [List.foldl_cons, ih, mem_classify_snd, List.mem_cons]
    constructor
    · rintro ((h | h) | h)
      · exact Or.inl h
      · exact Or.inr ⟨hd, Or.inl rfl, h⟩
      · obtain ⟨gp, hgp, hm⟩ := h
        exact Or.inr ⟨gp, Or.inr hgp, hm⟩
    · rintro (h | ⟨gp, hgp | hgp, hm⟩)
      · exact Or.inl (Or.inl h)
      · subst hgp
        exact Or.inl (Or.inr hm)
      · exact Or.inr ⟨gp, hgp, hm⟩

/-- C7: `GetClasses` returns, as unordered sets, exactly the classes recorded
`Eligible` and the classes recorded `Ineligible`, pooled across the job scope
and every task-group scope; on the spec's example (job class 1 eligible, job
class 2 ineligible, group "web" class 3 eligible) the eligible list is a
permutation of `[1, 3]` and the ineligible list a permutation of `[2]`. -/
theorem GetClasses_pooled (e : EvalEligibility) (c : Nat) :
    (c ∈ e.GetClasses.1 ↔
      (c, ComputedClassFeasibility.eligible) ∈ e.job ∨
        ∃ gp ∈ e.taskGroups,
          (c, ComputedClassFeasibility.eligible) ∈ gp.2) ∧
    (c ∈ e.GetClasses.2 ↔
      (c, ComputedClassFeasibility.ineligible) ∈ e.job ∨
        ∃ gp ∈ e.taskGroups,
          (c, ComputedClassFeasibility.ineligible) ∈ gp.2) ∧
    ((((NewEvalEligibility.SetJobEligibility true 1).SetJobEligibility
        false 2).SetTaskGroupEligibility true "web" 3).GetClasses.1.Perm
        [1, 3] ∧
     (((NewEvalEligibility.SetJobEligibility true 1).SetJobEligibility
        false 2).SetTaskGroupEligibility true "web" 3).GetClasses.2.Perm
        [2]) := by
  refine ⟨?_, ?_, by decide, by decide⟩
  · rw [EvalEligibility.GetClasses, mem_foldl_classify_fst, mem_classify_fst]
    simp
  · rw [EvalEligibility.GetClasses, mem_foldl_classify_snd, mem_classify_snd]
    simp

/-- C8: `Reset` replaces only the per-placement metrics record with a fresh
empty one (equal to a newly constructed context's record), is idempotent, and
leaves the state handle, plan, eligibility tracker and both memoization
caches unchanged; in particular an `Eligibility` call after `Reset` returns
the same tracker as the `Eligibility` call before it. -/
theorem Reset_fresh_metrics_frame (s : State) (p : Plan) (l : Logger)
    (e : EvalContext) :
    e.Reset.Metrics = (NewEvalContext s p l).Metrics ∧
    e.Reset.Reset = e.Reset ∧
    e.Reset.state = e.state ∧
    e.Reset.plan = e.plan ∧
    e.Reset.eligibility = e.eligibility ∧
    e.Reset.reCache = e.reCache ∧
    e.Reset.constraintCache = e.constraintCache ∧
    (e.Eligibility.2.Reset.Eligibility.1 = e.Eligibility.1) := by
  refine ⟨rfl, rfl, rfl, rfl, rfl, rfl, rfl, ?_⟩
  simp [Eligibility_spec, EvalContext.Reset]

/-- C9: `Eligibility`, `RegexpCache` and `ConstraintCache` are lazy
singletons per context: a new context has none of them materialized; each
accessor stores exactly the instance it returns; when an instance is already
stored the accessor returns it and leaves the context unchanged; hence a
repeated call returns exactly the instance materialized by the first call
without modifying the context again. -/
theorem lazy_singleton_accessors (s : State) (p : Plan) (l : Logger)
    (e : EvalContext) :
    ((NewEvalContext s p l).reCache = none ∧
      (NewEvalContext s p l).constraintCache = none ∧
      (NewEvalContext s p l).eligibility = none) ∧
    (∀ m, e.reCache = some m → e.RegexpCache = (m, e)) ∧
    (∀ m, e.constraintCache = some m → e.ConstraintCache = (m, e)) ∧
    (∀ t, e.eligibility = some t → e.Eligibility = (t, e)) ∧
    (e.RegexpCache.2.reCache = some e.RegexpCache.1 ∧
      e.ConstraintCache.2.constraintCache = some e.ConstraintCache.1 ∧
      e.Eligibility.2.eligibility = some e.Eligibility.1) ∧
    (e.RegexpCache.2.RegexpCache = (e.RegexpCache.1, e.RegexpCache.2) ∧
      e.ConstraintCache.2.ConstraintCache =
        (e.ConstraintCache.1, e.ConstraintCache.2) ∧
      e.Eligibility.2.Eligibility = (e.Eligibility.1, e.Eligibility.2)) := by
  refine ⟨⟨rfl, rfl, rfl⟩, ?_, ?_, ?_, ⟨?_, ?_, ?_⟩, ⟨?_, ?_, ?_⟩⟩
  · intro m hm
    rw [EvalContext.RegexpCache, hm]
  · intro m hm
    rw [EvalContext.ConstraintCache, hm]
  · intro t ht
    rw [EvalContext.Eligibility, ht]
  · simp [RegexpCache_spec]
  · simp [ConstraintCache_spec]
  · simp [Eligibility_spec]
  · simp [RegexpCache_spec]
  · simp [ConstraintCache_spec]
  · simp [Eligibility_spec]

/-- C9 witness: instantiated on a concrete context holding a materialized
regular-expression cache, the accessor returns the stored instance and the
context unchanged. -/
theorem lazy_singleton_accessors_witness :
    ({ reCache := some [("a", { pattern := "a" })], constraintCache := none,
       state := { AllocsByNode := fun _ => Except.ok none },
       plan := { NodeUpdate := [], NodeAllocation := [] },
       logger := { name := "log" }, metrics := {}, eligibility := none } :
        EvalContext).RegexpCache =
      ([("a", { pattern := "a" })],
       { reCache := some [("a", { pattern := "a" })], constraintCache := none,
         state := { AllocsByNode := fun _ => Except.ok none },
         plan := { NodeUpdate := [], NodeAllocation := [] },
         logger := { name := "log" }, metrics := {}, eligibility := none }) :=
  (lazy_singleton_accessors
      { AllocsByNode := fun _ => Except.ok none }
      { NodeUpdate := [], NodeAllocation := [] }
      { name := "log" }
      { reCache := some [("a", { pattern := "a" })], constraintCache := none,
        state := { AllocsByNode := fun _ => Except.ok none },
        plan := { NodeUpdate := [], NodeAllocation := [] },
        logger := { name := "log" }, metrics := {},
        eligibility := none }).2.1 [("a", { pattern := "a" })] rfl

/-- C10: `SetState(s)` makes the `State()` accessor return `s` and leaves the
plan, logger, metrics record, eligibility tracker and both memoization
caches unchanged. -/
theorem SetState_frame (e : EvalContext) (s : State) :
    (e.SetState s).State = s ∧
    (e.SetState s).plan = e.plan ∧
    (e.SetState s).logger = e.logger ∧
    (e.SetState s).metrics = e.metrics ∧
    (e.SetState s).eligibility = e.eligibility ∧
    (e.SetState s).reCache = e.reCache ∧
    (e.SetState s).constraintCache = e.constraintCache :=
  ⟨rfl, rfl, rfl, rfl, rfl, rfl, rfl⟩

/-- C1: on a successful state lookup, `ProposedAllocs(nodeID)` returns
exactly the current allocations of the node with terminal ones dropped, the
plan's `NodeUpdate` instances removed when that entry is non-empty, and the
plan's `NodeAllocation` entries appended; in particular, with current
allocations `{a2(running)}`, `NodeUpdate[N] = {a2}` and
`NodeAllocation[N] = {a3}`, the result is exactly `{a3}`. -/
theorem ProposedAllocs_pipeline :
    (∀ (e : EvalContext) (n : String) (existing : GoSlice Allocation),
      e.state.AllocsByNode n = Except.ok existing →
      e.ProposedAllocs n = Except.ok (some (
        (if goElems (planLookup e.plan.NodeUpdate n) = [] then
          (goElems existing).filter (fun a => !a.terminal)
        else
          ((goElems existing).filter (fun a => !a.terminal)).filter
            (fun a => !(goElems (planLookup e.plan.NodeUpdate n)).any
              (fun r => r.id == a.id))) ++
        goElems (planLookup e.plan.NodeAllocation n)))) ∧
    (∀ (a2 a3 : Allocation) (l : Logger) (n : String), a2.terminal = false →
      (NewEvalContext
        { AllocsByNode := fun m =>
            if m = n then Except.ok (some [a2]) else Except.ok none }
        { NodeUpdate := [(n, [a2])], NodeAllocation := [(n, [a3])] }
        l).ProposedAllocs n = Except.ok (some [a3])) := by
  constructor
  · intro e n existing h
    simp only [EvalContext.ProposedAllocs, h, ensureNonNil_eq,
      goElems_goAppendSlice]
    by_cases hupd : goElems (planLookup e.plan.NodeUpdate n) = []
    · have hlen : ¬ goLen (planLookup e.plan.NodeUpdate n) > 0 := by
        simp [goLen, hupd]
      rw [if_neg hlen, if_pos hupd, goElems_FilterTerminalAllocs]
    · have hlen : goLen (planLookup e.plan.NodeUpdate n) > 0 := by
        simp only [goLen]
        exact List.length_pos.mpr hupd
      rw [if_pos hlen, if_neg hupd, goElems_RemoveAllocs,
        goElems_FilterTerminalAllocs]
  · intro a2 a3 l n ha2
    simp [EvalContext.ProposedAllocs, NewEvalContext, planLookup, mapLookup,
      FilterTerminalAllocs, RemoveAllocs, goAppendSlice, goElems, goLen,
      ensureNonNil, ha2]

/-- C1 witness: the spec's concrete scenario — node "N" currently runs `a2`,
the plan evicts `a2` and places `a3` — yields exactly `[a3]`. -/
theorem ProposedAllocs_pipeline_witness :
    (NewEvalContext
      { AllocsByNode := fun m =>
          if m = "N" then Except.ok (some [{ id := "a2", terminal := false }])
          else Except.ok none }
      { NodeUpdate := [("N", [{ id := "a2", terminal := false }])],
        NodeAllocation := [("N", [{ id := "a3", terminal := false }])] }
      { name := "log" }).ProposedAllocs "N" =
      Except.ok (some [{ id := "a3", terminal := false }]) :=
  ProposedAllocs_pipeline.2 { id := "a2", terminal := false }
    { id := "a3", terminal := false } { name := "log" } "N" rfl

/-- C6: `ProposedAllocs(nodeID)` fails iff the underlying `AllocsByNode`
lookup fails and then returns that error verbatim; on success it never
returns a nil slice, and a node with no current allocations and no planned
placements yields the empty, non-nil slice. -/
theorem ProposedAllocs_error_spec (e : EvalContext) (n : String) :
    (∀ err, e.state.AllocsByNode n = Except.error err →
      e.ProposedAllocs n = Except.error err) ∧
    (∀ v, e.state.AllocsByNode n = Except.ok v →
      ∃ l, e.ProposedAllocs n = Except.ok (some l)) ∧
    (∀ v, e.state.AllocsByNode n = Except.ok v → goElems v = [] →
      goElems (planLookup e.plan.NodeAllocation n) = [] →
      e.ProposedAllocs n = Except.ok (some [])) := by
  refine ⟨?_, ?_, ?_⟩
  · intro err h
    simp [EvalContext.ProposedAllocs, h]
  · intro v h
    simp only [EvalContext.ProposedAllocs, h, ensureNonNil_eq]
    exact ⟨_, rfl⟩
  · intro v h hv halloc
    have hfta : goElems (FilterTerminalAllocs v) = [] := by
      rw [goElems_FilterTerminalAllocs, hv]
      rfl
    simp only [EvalContext.ProposedAllocs, h, ensureNonNil_eq,
      goElems_goAppendSlice, halloc]
    by_cases hc : goLen (planLookup e.plan.NodeUpdate n) > 0
    · simp [if_pos hc, goElems_RemoveAllocs, hfta]
    · simp [if_neg hc, hfta]

/-- C6 witness: a failing state lookup propagates its error verbatim, and a
node with no current or proposed allocations yields the empty non-nil
slice. -/
theorem ProposedAllocs_error_spec_witness :
    (NewEvalContext { AllocsByNode := fun _ => Except.error "boom" }
      { NodeUpdate := [], NodeAllocation := [] }
      { name := "log" }).ProposedAllocs "N" = Except.error "boom" ∧
    (NewEvalContext { AllocsByNode := fun _ => Except.ok none }
      { NodeUpdate := [], NodeAllocation := [] }
      { name := "log" }).ProposedAllocs "N" = Except.ok (some []) :=
  ⟨(ProposedAllocs_error_spec _ "N").1 "boom" rfl,
   (ProposedAllocs_error_spec _ "N").2.2 none rfl rfl rfl⟩

end Nomad
